import Mathlib

/-!
# Game selection menu (`menu.cpp`)

A shallow embedding of the menu program: the constants, the list of game
names, the tone helper `buzzer_beep`, and the body of `main` split along
its control structure (redraw pass, poll sub-loop, tone, dispatch).

Calls into the display driver, the PWM peripheral and `sleep_ms` have no
visible result in the program; each is recorded as an `Event` appended to
the `trace` field of the machine state, in program order.  The six button
lines are an input: a `Buttons` value is one sample of the six levels, and
a run of the program is driven by a list of such samples, one per pass of
the poll sub-loop.
-/

namespace Menu

/-! ## Constants (lines 9-28) -/

def SCREEN_WIDTH : Int := 128
def SCREEN_HEIGHT : Int := 64

def UP_PIN : Nat := 2
def DOWN_PIN : Nat := 3
def LEFT_PIN : Nat := 4
def RIGHT_PIN : Nat := 5
def BUTTON1_PIN : Nat := 6
def BUTTON2_PIN : Nat := 7

def BUZZER_PIN : Nat := 18

def GAMELIST : List String :=
  ["Pong", "Snake", "Space Invaders", "Dino",
   "2048", "Tetris", "Full Speed", "Lunar Module"]

/-! ## Inputs and recorded calls -/

/-- One sample of the six button lines.  Each field is the electrical level
of the line: `true` is high (released, the pull-up wins), `false` is low
(pressed). -/
structure Buttons where
  up : Bool
  down : Bool
  left : Bool
  right : Bool
  button1 : Bool
  button2 : Bool
  deriving DecidableEq, Repr

/-- Level read on a pin in the sample `b`; pins other than the six button
pins read high. -/
def gpio_get (b : Buttons) (pin : Nat) : Bool :=
  if pin = UP_PIN then b.up
  else if pin = DOWN_PIN then b.down
  else if pin = LEFT_PIN then b.left
  else if pin = RIGHT_PIN then b.right
  else if pin = BUTTON1_PIN then b.button1
  else if pin = BUTTON2_PIN then b.button2
  else true

/-- Colours of the display driver (`SSD1306::Color`). -/
inductive Color where
  | Black
  | White
  deriving DecidableEq, Repr

/-- Calls with an outside effect, as they appear in `menu.cpp`.  `game n` stands
for the (commented-out) call in `case n` of the dispatch switch. -/
inductive Event where
  | clear
  | fillRect (x y w h : Int) (c : Color)
  | setTextColor (c : Color)
  | setCursor (x y : Int)
  | print (text : String)
  | display
  | sleep_ms (ms : Nat)
  | gpio_set_function_pwm (pin : Nat)
  | pwm_init (pin : Nat) (wrap : Nat)
  | pwm_set_gpio_level (pin : Nat) (level : Nat)
  | pwm_deinit (pin : Nat)
  | game (n : Nat)
  deriving DecidableEq, Repr

/-- Variables of `main` together with the calls made so far. -/
structure State where
  current : Int
  game_selected : Int
  buttonPressed : Bool
  trace : List Event
  deriving DecidableEq, Repr

/-- Append calls to the trace. -/
def emit (es : List Event) (s : State) : State :=
  { s with trace := s.trace ++ es }

/-! ## Machine arithmetic of the centring expression (line 87)

`strlen` returns `size_t`, which is 32 bits wide on the RP2040.  In
`SCREEN_WIDTH / 2 - (strlen(..) * 8) / 2` the `int` operand `SCREEN_WIDTH / 2`
is converted to `size_t`, the subtraction is done modulo `2^32`, and the
result is converted back to `int` for `text_x`. -/

def SIZE_T_MOD : Nat := 2 ^ 32

/-- Length of a C string: the number of bytes before the terminator. -/
def strlen (s : String) : Nat := s.utf8ByteSize

/-- Conversion `int → size_t`. -/
def toSizeT (i : Int) : Nat := (i % (SIZE_T_MOD : Int)).toNat

/-- Conversion `size_t → int` (two's complement, 32 bits). -/
def toInt (n : Nat) : Int :=
  if n % SIZE_T_MOD < 2 ^ 31 then ((n % SIZE_T_MOD : Nat) : Int)
  else ((n % SIZE_T_MOD : Nat) : Int) - (SIZE_T_MOD : Int)

/-- The `size_t` value of `SCREEN_WIDTH / 2 - (strlen(name) * 8) / 2`. -/
def text_x_size_t (name : String) : Nat :=
  (toSizeT (SCREEN_WIDTH / 2) + SIZE_T_MOD - ((strlen name * 8) % SIZE_T_MOD) / 2) % SIZE_T_MOD

/-- The value of `text_x` on line 87. -/
def text_x (name : String) : Int := toInt (text_x_size_t name)

/-! ## Redraw pass (lines 76-94) -/

/-- Calls made by the body of the `for` loop on lines 79-90 for one `row`. -/
def drawRow (current : Int) (row : Nat) : List Event :=
  (if (row : Int) = current then
      [Event.fillRect 0 (row * 8) SCREEN_WIDTH 7 Color.White,
       Event.setTextColor Color.Black]
    else
      [Event.setTextColor Color.White])
  ++ [Event.setCursor (text_x (GAMELIST.getD row "")) (row * 8),
      Event.print (GAMELIST.getD row "")]

/-- Calls made by the `for` loop on lines 79-90: rows `0 .. GAMELIST.size() - 1`
in order. -/
def drawList (current : Int) : List Event :=
  (List.range GAMELIST.length).flatMap (drawRow current)

/-- Lines 76-94: clear, draw the rows, flush, settle. -/
def redraw (s : State) : State :=
  emit ([Event.clear] ++ drawList s.current ++ [Event.display, Event.sleep_ms 200]) s

/-! ## Poll sub-loop (lines 96-113) -/

/-- One pass of the body of `while (!buttonPressed)`, lines 100-112, on the
sample `b`.  The guards keep `current` within `int` range, so `current++`
and `current--` are exact. -/
def pollStep (b : Buttons) (s : State) : State :=
  let s1 :=
    if (gpio_get b DOWN_PIN == false || gpio_get b RIGHT_PIN == false)
        && decide (s.current < (GAMELIST.length : Int) - 1) then
      { s with current := s.current + 1, buttonPressed := true }
    else if (gpio_get b UP_PIN == false || gpio_get b LEFT_PIN == false)
        && decide (s.current > 0) then
      { s with current := s.current - 1, buttonPressed := true }
    else if gpio_get b BUTTON1_PIN == false || gpio_get b BUTTON2_PIN == false then
      { s with buttonPressed := true, game_selected := s.current }
    else s
  emit [Event.sleep_ms 10] s1

/-- The loop `while (!buttonPressed)` run on the samples `rs`, one sample per
pass.  Returns the state and the samples not yet used.  When the samples run
out before a button event, the state returned still has
`buttonPressed = false`. -/
def pollLoop : List Buttons → State → State × List Buttons
  | [], s => (s, [])
  | b :: bs, s => if s.buttonPressed then (s, b :: bs) else pollLoop bs (pollStep b s)

/-! ## Tone (lines 30-46) -/

/-- The calls made by `buzzer_beep`, in order. -/
def beepCalls : List Event :=
  [Event.gpio_set_function_pwm BUZZER_PIN,
   Event.pwm_init BUZZER_PIN 65535,
   Event.pwm_set_gpio_level BUZZER_PIN 20000,
   Event.sleep_ms 100,
   Event.pwm_set_gpio_level BUZZER_PIN 0,
   Event.pwm_deinit BUZZER_PIN]

/-- One call of `buzzer_beep`. -/
def buzzer_beep (s : State) : State := emit beepCalls s

/-! ## Dispatch (lines 118-151) -/

/-- The `switch (game_selected)` on lines 123-148: eight labels, no default. -/
def gameSwitch (s : State) : State :=
  if s.game_selected = 0 then emit [Event.game 0] s
  else if s.game_selected = 1 then emit [Event.game 1] s
  else if s.game_selected = 2 then emit [Event.game 2] s
  else if s.game_selected = 3 then emit [Event.game 3] s
  else if s.game_selected = 4 then emit [Event.game 4] s
  else if s.game_selected = 5 then emit [Event.game 5] s
  else if s.game_selected = 6 then emit [Event.game 6] s
  else if s.game_selected = 7 then emit [Event.game 7] s
  else s

/-- Lines 118-151. -/
def dispatch (s : State) : State :=
  if s.game_selected ≥ 0 then
    let s1 := emit [Event.clear, Event.display] s
    let s2 := gameSwitch s1
    { s2 with game_selected := -1 }
  else s

/-! ## Main loop (lines 72-152) -/

/-- One pass of the body of `while (true)`, lines 76-151, on the samples `rs`.
When the samples run out inside the poll sub-loop the pass is not finished:
the state is returned as it stands there, with `buttonPressed = false`. -/
def iteration (rs : List Buttons) (s : State) : State × List Buttons :=
  let s1 := redraw s
  let s2 := { s1 with buttonPressed := false }
  let p := pollLoop rs s2
  if p.1.buttonPressed then (dispatch (buzzer_beep p.1), p.2) else p

/-- At most `n` passes of `while (true)` on the samples `rs`; stops early when
the samples run out inside a poll sub-loop. -/
def mainLoop : Nat → List Buttons → State → State × List Buttons
  | 0, rs, s => (s, rs)
  | n + 1, rs, s =>
    let p := iteration rs s
    if p.1.buttonPressed then mainLoop n p.2 p.1 else p

/-- Values of the variables of `main` on entry to `while (true)` (lines 72-73).
`buttonPressed` is declared inside the loop (line 96); its value here is not
read, `iteration` sets it before the poll sub-loop. -/
def initState : State :=
  { current := 0, game_selected := -1, buttonPressed := false, trace := [] }

/-! ## Vocabulary of the properties -/

/-- The line `pin` reads low in the sample `b`. -/
def pressed (b : Buttons) (pin : Nat) : Prop := gpio_get b pin = false

instance (b : Buttons) (pin : Nat) : Decidable (pressed b pin) := by
  unfold pressed; infer_instance

/-- All six lines high. -/
def released : Buttons :=
  { up := true, down := true, left := true, right := true, button1 := true, button2 := true }

/-- Branch of the `if` / `else if` chain on lines 100-111. -/
inductive PollEvent where
  | none
  | moveDown
  | moveUp
  | confirm
  deriving DecidableEq, Repr

/-- Branch of the chain on lines 100-111 taken on the sample `b` when the
highlighted index is `current`: the three conditions of the source, in the
order of the source. -/
def pollEvent (b : Buttons) (current : Int) : PollEvent :=
  if (gpio_get b DOWN_PIN == false || gpio_get b RIGHT_PIN == false)
      && decide (current < (GAMELIST.length : Int) - 1) then PollEvent.moveDown
  else if (gpio_get b UP_PIN == false || gpio_get b LEFT_PIN == false)
      && decide (current > 0) then PollEvent.moveUp
  else if gpio_get b BUTTON1_PIN == false || gpio_get b BUTTON2_PIN == false then
    PollEvent.confirm
  else PollEvent.none

/-- A tone starts: the buzzer level is set to a non-zero duty. -/
def isToneStart : Event → Bool
  | Event.pwm_set_gpio_level pin level => pin == BUZZER_PIN && level != 0
  | _ => false

/-- A `fillRect` call. -/
def isFillRect : Event → Bool
  | Event.fillRect _ _ _ _ _ => true
  | _ => false

/-- Texts printed by a sequence of calls, each with the text colour in force
when it is printed (`c` is the colour in force at the start). -/
def printed : Color → List Event → List (Color × String)
  | _, [] => []
  | _, Event.setTextColor c :: es => printed c es
  | c, Event.print t :: es => (c, t) :: printed c es
  | c, _ :: es => printed c es

/-- State on entry to the poll sub-loop within a pass of `while (true)` started
in `s` (lines 76-96). -/
def pollEntry (s : State) : State := { redraw s with buttonPressed := false }

/-- State at the head of the main loop with index `i` highlighted, no game
selected and no call made yet. -/
def atIndex (i : Int) : State :=
  { current := i, game_selected := -1, buttonPressed := false, trace := [] }

/-- The sample with Down pressed and the other five lines released. -/
def downHeld : Buttons := { released with down := false }

/-- States right after each pass of the poll sub-loop run on the samples `rs`,
in order. -/
def pollLoopStates : List Buttons → State → List State
  | [], _ => []
  | b :: bs, s =>
    if s.buttonPressed then [] else pollStep b s :: pollLoopStates bs (pollStep b s)

/-- States right after each pass of the poll sub-loop during at most `n` passes
of `while (true)` on the samples `rs`, in order. -/
def pollStates : Nat → List Buttons → State → List State
  | 0, _, _ => []
  | n + 1, rs, s =>
    let p := iteration rs s
    pollLoopStates rs (pollEntry s)
      ++ (if p.1.buttonPressed then pollStates n p.2 p.1 else [])

/-- What holds of a state in which no event has fired: at the head of
`while (true)` and inside the poll sub-loop. -/
def LoopInv (s : State) : Prop :=
  0 ≤ s.current ∧ s.current < 8 ∧ s.game_selected = -1

/-- What holds of a state on exit from the poll sub-loop. -/
def ExitInv (s : State) : Prop :=
  0 ≤ s.current ∧ s.current < 8 ∧
    (s.game_selected = -1 ∨ (0 ≤ s.game_selected ∧ s.game_selected < 8))

/-! ## Poll step: what each branch does -/

theorem pollStep_of_moveDown (b : Buttons) (s : State)
    (h : pollEvent b s.current = PollEvent.moveDown) :
    pollStep b s = emit [Event.sleep_ms 10]
      { s with current := s.current + 1, buttonPressed := true } := by
  unfold pollEvent at h
  unfold pollStep
  split_ifs at h ⊢
  rfl

theorem pollStep_of_moveUp (b : Buttons) (s : State)
    (h : pollEvent b s.current = PollEvent.moveUp) :
    pollStep b s = emit [Event.sleep_ms 10]
      { s with current := s.current - 1, buttonPressed := true } := by
  unfold pollEvent at h
  unfold pollStep
  split_ifs at h ⊢
  rfl

theorem pollStep_of_confirm (b : Buttons) (s : State)
    (h : pollEvent b s.current = PollEvent.confirm) :
    pollStep b s = emit [Event.sleep_ms 10]
      { s with buttonPressed := true, game_selected := s.current } := by
  unfold pollEvent at h
  unfold pollStep
  split_ifs at h ⊢
  rfl

theorem pollStep_of_none (b : Buttons) (s : State)
    (h : pollEvent b s.current = PollEvent.none) :
    pollStep b s = emit [Event.sleep_ms 10] s := by
  unfold pollEvent at h
  unfold pollStep
  split_ifs at h ⊢
  rfl

/-! ## Which branch is taken, from the buttons -/

theorem GAMELIST_length : GAMELIST.length = 8 := rfl

theorem pollEvent_eq (b : Buttons) (c : Int) :
    pollEvent b c =
      if (b.down = false ∨ b.right = false) ∧ c < 7 then PollEvent.moveDown
      else if (b.up = false ∨ b.left = false) ∧ 0 < c then PollEvent.moveUp
      else if b.button1 = false ∨ b.button2 = false then PollEvent.confirm
      else PollEvent.none := by
  simp [pollEvent, gpio_get, UP_PIN, DOWN_PIN, LEFT_PIN, RIGHT_PIN,
    BUTTON1_PIN, BUTTON2_PIN, GAMELIST_length]

theorem pressed_iff (b : Buttons) :
    (pressed b UP_PIN ↔ b.up = false) ∧ (pressed b DOWN_PIN ↔ b.down = false) ∧
    (pressed b LEFT_PIN ↔ b.left = false) ∧ (pressed b RIGHT_PIN ↔ b.right = false) ∧
    (pressed b BUTTON1_PIN ↔ b.button1 = false) ∧
    (pressed b BUTTON2_PIN ↔ b.button2 = false) := by
  simp [pressed, gpio_get, UP_PIN, DOWN_PIN, LEFT_PIN, RIGHT_PIN, BUTTON1_PIN, BUTTON2_PIN]

theorem pollEvent_moveDown_iff (b : Buttons) (c : Int) :
    pollEvent b c = PollEvent.moveDown ↔
      (pressed b DOWN_PIN ∨ pressed b RIGHT_PIN) ∧ c < 7 := by
  obtain ⟨_, h2, _, h4, _, _⟩ := pressed_iff b
  rw [pollEvent_eq, h2, h4]
  split_ifs <;> simp_all

theorem pollEvent_moveUp_iff (b : Buttons) (c : Int) :
    pollEvent b c = PollEvent.moveUp ↔
      ¬ ((pressed b DOWN_PIN ∨ pressed b RIGHT_PIN) ∧ c < 7) ∧
      (pressed b UP_PIN ∨ pressed b LEFT_PIN) ∧ 0 < c := by
  obtain ⟨h1, h2, h3, h4, _, _⟩ := pressed_iff b
  rw [pollEvent_eq, h1, h2, h3, h4]
  split_ifs <;> simp_all

theorem pollEvent_none_iff (b : Buttons) (c : Int) :
    pollEvent b c = PollEvent.none ↔
      ¬ ((pressed b DOWN_PIN ∨ pressed b RIGHT_PIN) ∧ c < 7) ∧
      ¬ ((pressed b UP_PIN ∨ pressed b LEFT_PIN) ∧ 0 < c) ∧
      ¬ (pressed b BUTTON1_PIN ∨ pressed b BUTTON2_PIN) := by
  obtain ⟨h1, h2, h3, h4, h5, h6⟩ := pressed_iff b
  rw [pollEvent_eq, h1, h2, h3, h4, h5, h6]
  split_ifs <;> simp_all

theorem pollEvent_confirm_iff (b : Buttons) (c : Int) :
    pollEvent b c = PollEvent.confirm ↔
      ¬ ((pressed b DOWN_PIN ∨ pressed b RIGHT_PIN) ∧ c < 7) ∧
      ¬ ((pressed b UP_PIN ∨ pressed b LEFT_PIN) ∧ 0 < c) ∧
      (pressed b BUTTON1_PIN ∨ pressed b BUTTON2_PIN) := by
  obtain ⟨h1, h2, h3, h4, h5, h6⟩ := pressed_iff b
  rw [pollEvent_eq, h1, h2, h3, h4, h5, h6]
  split_ifs <;> simp_all

/-! ## The poll sub-loop on a run of samples -/

theorem pollLoop_done (rs : List Buttons) (s : State) (h : s.buttonPressed = true) :
    pollLoop rs s = (s, rs) := by
  cases rs <;> simp [pollLoop, h]

/-- Samples that take no branch only add their debounce sleeps. -/
theorem pollLoop_quiet (quiet rest : List Buttons) (s : State)
    (hs : s.buttonPressed = false)
    (hq : ∀ q ∈ quiet, pollEvent q s.current = PollEvent.none) :
    pollLoop (quiet ++ rest) s =
      pollLoop rest (emit (List.replicate quiet.length (Event.sleep_ms 10)) s) := by
  induction quiet generalizing s with
  | nil => simp [emit]
  | cons q qs ih =>
    have hq0 := hq q (List.mem_cons_self _ _)
    have hstep := pollStep_of_none q s hq0
    have hrec : pollLoop (q :: qs ++ rest) s = pollLoop (qs ++ rest) (pollStep q s) := by
      simp [pollLoop, hs]
    rw [hrec, hstep, ih (emit [Event.sleep_ms 10] s) hs
      (fun q2 h2 => hq q2 (List.mem_cons_of_mem _ h2))]
    simp [emit, List.replicate_succ]

/-- A sample that takes a branch ends the sub-loop on that pass. -/
theorem pollLoop_fire (b : Buttons) (rest : List Buttons) (s : State)
    (hs : s.buttonPressed = false)
    (hb : pollEvent b s.current ≠ PollEvent.none) :
    pollLoop (b :: rest) s = (pollStep b s, rest) := by
  have hp : (pollStep b s).buttonPressed = true := by
    cases hev : pollEvent b s.current with
    | none => exact absurd hev hb
    | moveDown => rw [pollStep_of_moveDown b s hev]; rfl
    | moveUp => rw [pollStep_of_moveUp b s hev]; rfl
    | confirm => rw [pollStep_of_confirm b s hev]; rfl
  simp only [pollLoop, hs, Bool.false_eq_true, if_false]
  exact pollLoop_done rest _ hp

theorem pollLoop_step (b : Buttons) (rest : List Buttons) (s : State)
    (hs : s.buttonPressed = false) :
    pollLoop (b :: rest) s = pollLoop rest (pollStep b s) := by
  simp [pollLoop, hs]

/-! ## Claims about one poll step -/

/-- C2 (as amended): for every state with `0 ≤ current < 7` and `game_selected = -1`,
and every sample in which Down is pressed together with Button1 or Button2, one
poll step increments `current` by 1 and leaves `game_selected` at `-1`. -/
theorem move_beats_confirm_below_last (b : Buttons) (s : State)
    (_h0 : 0 ≤ s.current) (h7 : s.current < 7) (hsel : s.game_selected = -1)
    (hd : pressed b DOWN_PIN)
    (_hc : pressed b BUTTON1_PIN ∨ pressed b BUTTON2_PIN) :
    (pollStep b s).current = s.current + 1 ∧ (pollStep b s).game_selected = -1 := by
  have hev : pollEvent b s.current = PollEvent.moveDown :=
    (pollEvent_moveDown_iff b s.current).2 ⟨Or.inl hd, h7⟩
  rw [pollStep_of_moveDown b s hev]
  exact ⟨rfl, hsel⟩

theorem move_beats_confirm_below_last_witness :
    (pollStep { released with down := false, button1 := false } (atIndex 3)).current
      = 3 + 1 ∧
    (pollStep { released with down := false, button1 := false } (atIndex 3)).game_selected
      = -1 :=
  move_beats_confirm_below_last { released with down := false, button1 := false } (atIndex 3)
    (by decide) (by decide) rfl (by decide) (Or.inl (by decide))

/-- C2 (as stated) fails on the last entry: with `current = 7`, Down and Button1
pressed together and the other lines released, the poll step leaves `current`
at 7 and sets `game_selected = 7`; so the statement for all of
`0 ≤ current ≤ 7` is false. -/
theorem move_beats_confirm_fails_at_last :
    (pollStep { released with down := false, button1 := false } (atIndex 7)).current = 7 ∧
      (pollStep { released with down := false, button1 := false } (atIndex 7)).game_selected
        = 7 ∧
      ¬ (∀ (b : Buttons) (s : State), 0 ≤ s.current → s.current ≤ 7 →
          s.game_selected = -1 → pressed b DOWN_PIN →
          (pressed b BUTTON1_PIN ∨ pressed b BUTTON2_PIN) →
          (pollStep b s).current = s.current + 1 ∧ (pollStep b s).game_selected = -1) := by
  refine ⟨by decide, by decide, fun h => ?_⟩
  have h1 := h { released with down := false, button1 := false } (atIndex 7)
    (by decide) (by decide) rfl (by decide) (Or.inl (by decide))
  revert h1
  decide

/-- C3: for every state with `0 ≤ current < 7` and every sample in which Down or
Right is pressed, whatever the other four lines read, one poll step sets
`current` to `current + 1`, leaves `game_selected` as it was (so at `-1` when it
was `-1`), sets `buttonPressed`, makes no call but the debounce sleep, and the
poll sub-loop ends on that pass. -/
theorem priority_one_move_down (b : Buttons) (s : State) (rest : List Buttons)
    (_h0 : 0 ≤ s.current) (h7 : s.current < 7)
    (hb : pressed b DOWN_PIN ∨ pressed b RIGHT_PIN) :
    pollStep b s =
        emit [Event.sleep_ms 10] { s with current := s.current + 1, buttonPressed := true } ∧
      (pollStep b s).current = s.current + 1 ∧
      (pollStep b s).game_selected = s.game_selected ∧
      (s.game_selected = -1 → (pollStep b s).game_selected = -1) ∧
      (pollStep b s).buttonPressed = true ∧
      (s.buttonPressed = false → pollLoop (b :: rest) s = (pollStep b s, rest)) := by
  have hev : pollEvent b s.current = PollEvent.moveDown :=
    (pollEvent_moveDown_iff b s.current).2 ⟨hb, h7⟩
  refine ⟨pollStep_of_moveDown b s hev, ?_, ?_, ?_, ?_, ?_⟩
  · rw [pollStep_of_moveDown b s hev]; rfl
  · rw [pollStep_of_moveDown b s hev]; rfl
  · intro hsel; rw [pollStep_of_moveDown b s hev]; exact hsel
  · rw [pollStep_of_moveDown b s hev]; rfl
  · intro hs
    exact pollLoop_fire b rest s hs (by rw [hev]; decide)

theorem priority_one_move_down_witness :
    (pollStep { released with right := false, up := false, button2 := false } initState).current
      = 1 ∧
    pollLoop [{ released with right := false, up := false, button2 := false }, released]
        initState
      = (pollStep { released with right := false, up := false, button2 := false } initState,
          [released]) :=
  have h := priority_one_move_down
    { released with right := false, up := false, button2 := false } initState [released]
    (by decide) (by decide) (Or.inr (by decide))
  ⟨h.2.1, h.2.2.2.2.2 rfl⟩

/-- C4: with `current = 7`, for every sample in which Down or Right is pressed and
Up, Left, Button1 and Button2 are not, a poll step only makes the debounce
sleep: `current`, `game_selected` and `buttonPressed` are unchanged
(`buttonPressed` stays false), the trace gains `sleep_ms 10` and nothing else
(no tone, no dispatch), and the poll sub-loop goes on with the next sample. -/
theorem bottom_boundary_absorbs (b : Buttons) (s : State) (rest : List Buttons)
    (hc : s.current = 7) (hs : s.buttonPressed = false)
    (_hd : pressed b DOWN_PIN ∨ pressed b RIGHT_PIN)
    (hu : ¬ pressed b UP_PIN) (hl : ¬ pressed b LEFT_PIN)
    (h1 : ¬ pressed b BUTTON1_PIN) (h2 : ¬ pressed b BUTTON2_PIN) :
    pollStep b s = emit [Event.sleep_ms 10] s ∧
      (pollStep b s).current = 7 ∧
      (pollStep b s).game_selected = s.game_selected ∧
      (pollStep b s).buttonPressed = false ∧
      (pollStep b s).trace = s.trace ++ [Event.sleep_ms 10] ∧
      pollLoop (b :: rest) s = pollLoop rest (pollStep b s) := by
  have hev : pollEvent b s.current = PollEvent.none := by
    rw [pollEvent_none_iff, hc]
    refine ⟨fun h => absurd h.2 (by decide), fun h => h.1.elim hu hl, fun h => h.elim h1 h2⟩
  have hstep := pollStep_of_none b s hev
  refine ⟨hstep, ?_, ?_, ?_, ?_, pollLoop_step b rest s hs⟩
  · rw [hstep]; exact hc
  · rw [hstep]; rfl
  · rw [hstep]; exact hs
  · rw [hstep]; rfl

theorem bottom_boundary_absorbs_witness :
    pollStep { released with down := false } (atIndex 7)
      = { current := 7, game_selected := -1, buttonPressed := false,
          trace := [Event.sleep_ms 10] } :=
  (bottom_boundary_absorbs { released with down := false } (atIndex 7) []
    rfl rfl (Or.inl (by decide)) (by decide) (by decide) (by decide) (by decide)).1

/-- C5: with `current = 0`, for every sample in which Up or Left is pressed and
Down, Right, Button1 and Button2 are not, a poll step only makes the debounce
sleep: `current`, `game_selected` and `buttonPressed` are unchanged
(`buttonPressed` stays false), the trace gains `sleep_ms 10` and nothing else,
and the poll sub-loop goes on with the next sample. -/
theorem top_boundary_absorbs (b : Buttons) (s : State) (rest : List Buttons)
    (hc : s.current = 0) (hs : s.buttonPressed = false)
    (_hu : pressed b UP_PIN ∨ pressed b LEFT_PIN)
    (hd : ¬ pressed b DOWN_PIN) (hr : ¬ pressed b RIGHT_PIN)
    (h1 : ¬ pressed b BUTTON1_PIN) (h2 : ¬ pressed b BUTTON2_PIN) :
    pollStep b s = emit [Event.sleep_ms 10] s ∧
      (pollStep b s).current = 0 ∧
      (pollStep b s).game_selected = s.game_selected ∧
      (pollStep b s).buttonPressed = false ∧
      (pollStep b s).trace = s.trace ++ [Event.sleep_ms 10] ∧
      pollLoop (b :: rest) s = pollLoop rest (pollStep b s) := by
  have hev : pollEvent b s.current = PollEvent.none := by
    rw [pollEvent_none_iff, hc]
    refine ⟨fun h => h.1.elim hd hr, fun h => absurd h.2 (by decide), fun h => h.elim h1 h2⟩
  have hstep := pollStep_of_none b s hev
  refine ⟨hstep, ?_, ?_, ?_, ?_, pollLoop_step b rest s hs⟩
  · rw [hstep]; exact hc
  · rw [hstep]; rfl
  · rw [hstep]; exact hs
  · rw [hstep]; rfl

theorem top_boundary_absorbs_witness :
    pollStep { released with left := false } initState
      = { current := 0, game_selected := -1, buttonPressed := false,
          trace := [Event.sleep_ms 10] } :=
  (top_boundary_absorbs { released with left := false } initState []
    rfl rfl (Or.inr (by decide)) (by decide) (by decide) (by decide) (by decide)).1

/-! ## Claims about the redraw pass -/

theorem redraw_trace (s : State) :
    (redraw s).trace =
      s.trace ++ ([Event.clear] ++ drawList s.current ++ [Event.display, Event.sleep_ms 200]) :=
  rfl

/-- C10: for each of the eight names of `GAMELIST`, the centring expression
computed in 32-bit `size_t` arithmetic does not wrap (the product
`strlen * 8` is below `2^32` and the subtrahend does not exceed
`SCREEN_WIDTH / 2`), `text_x = 64 - 4 * strlen`, `0 ≤ text_x` and
`text_x + 8 * strlen ≤ 128`; and for each row in `0 .. 7` the band
`row * 8 .. row * 8 + 7` lies inside the screen height of 64. -/
theorem row_layout_on_screen :
    (∀ name ∈ GAMELIST,
        strlen name * 8 < SIZE_T_MOD ∧
        (strlen name * 8) / 2 ≤ toSizeT (SCREEN_WIDTH / 2) ∧
        text_x name = 64 - 4 * (strlen name : Int) ∧
        0 ≤ text_x name ∧
        text_x name + 8 * (strlen name : Int) ≤ SCREEN_WIDTH) ∧
      (∀ row : Nat, row < GAMELIST.length →
        0 ≤ (row : Int) * 8 ∧ (row : Int) * 8 + 7 < SCREEN_HEIGHT) := by
  refine ⟨?_, ?_⟩
  · decide
  · intro row hrow
    rw [GAMELIST_length] at hrow
    simp only [SCREEN_HEIGHT]
    omega

theorem row_layout_on_screen_witness :
    text_x "Space Invaders" = 64 - 4 * (strlen "Space Invaders" : Int) ∧
      text_x "Space Invaders" + 8 * (strlen "Space Invaders" : Int) ≤ SCREEN_WIDTH ∧
      ((7 : Nat) : Int) * 8 + 7 < SCREEN_HEIGHT :=
  have h := row_layout_on_screen.1 "Space Invaders" (by decide)
  ⟨h.2.2.1, h.2.2.2.2, (row_layout_on_screen.2 7 (by decide)).2⟩

/-- C7: for every state with `0 ≤ current < 8`, the calls of the redraw pass
contain exactly one `fillRect`, namely `fillRect(0, 8 * current, 128, 7, White)`,
and the eight names are printed in list order, the one at index `current` with
text colour Black and each of the other seven with text colour White. -/
theorem highlight_rendering (s : State) (h0 : 0 ≤ s.current) (h8 : s.current < 8) :
    (redraw s).trace = s.trace ++ (redraw s).trace.drop s.trace.length ∧
      ((redraw s).trace.drop s.trace.length).filter isFillRect =
        [Event.fillRect 0 (8 * s.current) 128 7 Color.White] ∧
      ∀ c0 : Color, printed c0 ((redraw s).trace.drop s.trace.length) =
        GAMELIST.enum.map
          (fun p => (if (p.1 : Int) = s.current then Color.Black else Color.White, p.2)) := by
  rw [redraw_trace, List.drop_left]
  refine ⟨rfl, ?_⟩
  generalize s.current = c at h0 h8
  interval_cases c <;> refine ⟨by decide, fun c0 => ?_⟩ <;> cases c0 <;> decide

theorem highlight_rendering_witness :
    ((redraw (atIndex 2)).trace.drop 0).filter isFillRect
      = [Event.fillRect 0 16 128 7 Color.White] :=
  (highlight_rendering (atIndex 2) (by decide) (by decide)).2.1

/-! ## One pass of the main loop -/

theorem iteration_eq (rs : List Buttons) (s : State) :
    iteration rs s =
      if (pollLoop rs (pollEntry s)).1.buttonPressed then
        (dispatch (buzzer_beep (pollLoop rs (pollEntry s)).1), (pollLoop rs (pollEntry s)).2)
      else pollLoop rs (pollEntry s) := rfl

theorem pollStep_buttonPressed_of_fire (b : Buttons) (s : State)
    (hb : pollEvent b s.current ≠ PollEvent.none) : (pollStep b s).buttonPressed = true := by
  cases hev : pollEvent b s.current with
  | none => exact absurd hev hb
  | moveDown => rw [pollStep_of_moveDown b s hev]; rfl
  | moveUp => rw [pollStep_of_moveUp b s hev]; rfl
  | confirm => rw [pollStep_of_confirm b s hev]; rfl

/-- A pass whose samples are `quiet` (no branch taken) followed by a sample that
takes a branch. -/
theorem iteration_fire (quiet : List Buttons) (b : Buttons) (rest : List Buttons) (s : State)
    (hq : ∀ q ∈ quiet, pollEvent q s.current = PollEvent.none)
    (hb : pollEvent b s.current ≠ PollEvent.none) :
    iteration (quiet ++ b :: rest) s =
      (dispatch (buzzer_beep (pollStep b
        (emit (List.replicate quiet.length (Event.sleep_ms 10)) (pollEntry s)))), rest) := by
  have hloop : pollLoop (quiet ++ b :: rest) (pollEntry s) =
      (pollStep b (emit (List.replicate quiet.length (Event.sleep_ms 10)) (pollEntry s)),
        rest) := by
    rw [pollLoop_quiet quiet (b :: rest) (pollEntry s) rfl hq]
    exact pollLoop_fire b rest _ rfl hb
  have hp : (pollStep b (emit (List.replicate quiet.length (Event.sleep_ms 10))
      (pollEntry s))).buttonPressed = true := pollStep_buttonPressed_of_fire b _ hb
  rw [iteration_eq, hloop]
  simp only [hp, if_true]

/-- A pass all of whose samples take no branch stays in the poll sub-loop. -/
theorem iteration_quiet (quiet : List Buttons) (s : State)
    (hq : ∀ q ∈ quiet, pollEvent q s.current = PollEvent.none) :
    iteration quiet s =
      (emit (List.replicate quiet.length (Event.sleep_ms 10)) (pollEntry s), []) := by
  have hloop : pollLoop quiet (pollEntry s) =
      (emit (List.replicate quiet.length (Event.sleep_ms 10)) (pollEntry s), []) := by
    have h := pollLoop_quiet quiet [] (pollEntry s) rfl hq
    rw [List.append_nil] at h
    rw [h]; rfl
  rw [iteration_eq, hloop]
  simp [emit, pollEntry]

theorem gameSwitch_in_range (s : State) (h0 : 0 ≤ s.game_selected)
    (h8 : s.game_selected < 8) :
    gameSwitch s = emit [Event.game s.game_selected.toNat] s := by
  unfold gameSwitch
  generalize s.game_selected = g at h0 h8
  interval_cases g <;> simp

theorem dispatch_none (s : State) (h : s.game_selected = -1) : dispatch s = s := by
  simp [dispatch, h]

theorem dispatch_in_range (s : State) (h0 : 0 ≤ s.game_selected)
    (h8 : s.game_selected < 8) :
    dispatch s =
      { emit [Event.clear, Event.display, Event.game s.game_selected.toNat] s with
        game_selected := -1 } := by
  have hsw := gameSwitch_in_range (emit [Event.clear, Event.display] s) h0 h8
  simp only [dispatch, ge_iff_le, h0, if_true, hsw]
  simp [emit]

/-! ## Invariants of the two loops -/

theorem pollEvent_moveUp_pos (b : Buttons) (c : Int)
    (h : pollEvent b c = PollEvent.moveUp) : 0 < c := by
  rw [pollEvent_eq] at h
  split_ifs at h with h1 h2 h3
  exact h2.2

theorem pollStep_exitInv (b : Buttons) (s : State) (h : LoopInv s) :
    ExitInv (pollStep b s) := by
  obtain ⟨h0, h8, hsel⟩ := h
  cases hev : pollEvent b s.current with
  | none =>
    rw [pollStep_of_none b s hev]
    exact ⟨h0, h8, Or.inl hsel⟩
  | moveDown =>
    have h7 := ((pollEvent_moveDown_iff b s.current).1 hev).2
    rw [pollStep_of_moveDown b s hev]
    refine ⟨?_, ?_, Or.inl hsel⟩
    · show 0 ≤ s.current + 1
      omega
    · show s.current + 1 < 8
      omega
  | moveUp =>
    have hpos := pollEvent_moveUp_pos b s.current hev
    rw [pollStep_of_moveUp b s hev]
    refine ⟨?_, ?_, Or.inl hsel⟩
    · show 0 ≤ s.current - 1
      omega
    · show s.current - 1 < 8
      omega
  | confirm =>
    rw [pollStep_of_confirm b s hev]
    exact ⟨h0, h8, Or.inr ⟨h0, h8⟩⟩

theorem pollLoop_inv (rs : List Buttons) (s : State)
    (hs : s.buttonPressed = false) (h : LoopInv s) :
    ((pollLoop rs s).1.buttonPressed = false → LoopInv (pollLoop rs s).1) ∧
      ((pollLoop rs s).1.buttonPressed = true → ExitInv (pollLoop rs s).1) := by
  induction rs generalizing s with
  | nil =>
    refine ⟨fun _ => h, fun hp => ?_⟩
    simp [pollLoop, hs] at hp
  | cons b bs ih =>
    rw [pollLoop_step b bs s hs]
    by_cases hev : pollEvent b s.current = PollEvent.none
    · have hstep := pollStep_of_none b s hev
      rw [hstep]
      exact ih (emit [Event.sleep_ms 10] s) hs h
    · have hp := pollStep_buttonPressed_of_fire b s hev
      rw [pollLoop_done bs _ hp]
      refine ⟨fun hf => ?_, fun _ => pollStep_exitInv b s h⟩
      rw [hp] at hf
      exact absurd hf (by decide)

theorem pollLoopStates_range (rs : List Buttons) (s : State)
    (hs : s.buttonPressed = false) (h : LoopInv s) :
    ∀ t ∈ pollLoopStates rs s, 0 ≤ t.current ∧ t.current < 8 := by
  induction rs generalizing s with
  | nil => intro t ht; simp [pollLoopStates] at ht
  | cons b bs ih =>
    intro t ht
    simp only [pollLoopStates, hs, Bool.false_eq_true, if_false, List.mem_cons] at ht
    rcases ht with ht | ht
    · have hx := pollStep_exitInv b s h
      rw [ht]
      exact ⟨hx.1, hx.2.1⟩
    · by_cases hev : pollEvent b s.current = PollEvent.none
      · rw [pollStep_of_none b s hev] at ht
        exact ih (emit [Event.sleep_ms 10] s) hs h t ht
      · have hp := pollStep_buttonPressed_of_fire b s hev
        cases bs with
        | nil => simp [pollLoopStates] at ht
        | cons b2 bs2 => simp [pollLoopStates, hp] at ht

theorem dispatch_beep_inv (s : State) (h : ExitInv s) : LoopInv (dispatch (buzzer_beep s)) := by
  obtain ⟨h0, h8, hsel⟩ := h
  rcases hsel with hsel | ⟨hg0, hg8⟩
  · rw [dispatch_none (buzzer_beep s) hsel]
    exact ⟨h0, h8, hsel⟩
  · rw [dispatch_in_range (buzzer_beep s) hg0 hg8]
    exact ⟨h0, h8, rfl⟩

theorem iteration_inv (rs : List Buttons) (s : State) (h : LoopInv s) :
    LoopInv (iteration rs s).1 := by
  have hin := pollLoop_inv rs (pollEntry s) rfl h
  rw [iteration_eq]
  by_cases hp : (pollLoop rs (pollEntry s)).1.buttonPressed = true
  · simp only [hp, if_true]
    exact dispatch_beep_inv _ (hin.2 hp)
  · simp only [hp, if_false]
    exact hin.1 (by simpa using hp)

theorem mainLoop_inv (n : Nat) (rs : List Buttons) (s : State) (h : LoopInv s) :
    LoopInv (mainLoop n rs s).1 := by
  induction n generalizing rs s with
  | zero => exact h
  | succ n ih =>
    have hit := iteration_inv rs s h
    simp only [mainLoop]
    split_ifs
    · exact ih _ _ hit
    · exact hit

theorem pollStates_range (n : Nat) (rs : List Buttons) (s : State) (h : LoopInv s) :
    ∀ t ∈ pollStates n rs s, 0 ≤ t.current ∧ t.current < 8 := by
  induction n generalizing rs s with
  | zero => intro t ht; simp [pollStates] at ht
  | succ n ih =>
    intro t ht
    simp only [pollStates, List.mem_append] at ht
    rcases ht with ht | ht
    · exact pollLoopStates_range rs (pollEntry s) rfl h t ht
    · split_ifs at ht
      · exact ih _ _ (iteration_inv rs s h) t ht
      · simp at ht

theorem initState_inv : LoopInv initState := by
  refine ⟨?_, ?_, rfl⟩ <;> decide

/-! ## Every sample used is one poll step -/

theorem pollLoopStates_done (rs : List Buttons) (s : State) (h : s.buttonPressed = true) :
    pollLoopStates rs s = [] := by
  cases rs <;> simp [pollLoopStates, h]

theorem pollLoopStates_length (rs : List Buttons) (s : State) (hs : s.buttonPressed = false) :
    (pollLoopStates rs s).length + (pollLoop rs s).2.length = rs.length := by
  induction rs generalizing s with
  | nil => simp [pollLoopStates, pollLoop]
  | cons b bs ih =>
    rw [pollLoop_step b bs s hs]
    simp only [pollLoopStates, hs, Bool.false_eq_true, if_false, List.length_cons]
    by_cases hp : (pollStep b s).buttonPressed = true
    · rw [pollLoopStates_done bs _ hp, pollLoop_done bs _ hp]
      simp only [List.length_nil, List.length_cons]
      omega
    · have hp2 : (pollStep b s).buttonPressed = false := by simpa using hp
      have := ih (pollStep b s) hp2
      omega

theorem pollLoop_exhausted (rs : List Buttons) (s : State)
    (h : (pollLoop rs s).1.buttonPressed = false) : (pollLoop rs s).2 = [] := by
  induction rs generalizing s with
  | nil => rfl
  | cons b bs ih =>
    by_cases hs : s.buttonPressed = true
    · rw [pollLoop_done (b :: bs) s hs] at h
      rw [hs] at h
      exact absurd h (by decide)
    · have hs2 : s.buttonPressed = false := by simpa using hs
      rw [pollLoop_step b bs s hs2] at h ⊢
      exact ih _ h

theorem gameSwitch_buttonPressed (s : State) :
    (gameSwitch s).buttonPressed = s.buttonPressed := by
  unfold gameSwitch
  split_ifs <;> rfl

theorem dispatch_buttonPressed (s : State) :
    (dispatch s).buttonPressed = s.buttonPressed := by
  unfold dispatch
  split_ifs
  · exact gameSwitch_buttonPressed _
  · rfl

theorem iteration_snd (rs : List Buttons) (s : State) :
    (iteration rs s).2 = (pollLoop rs (pollEntry s)).2 := by
  rw [iteration_eq]
  split_ifs <;> rfl

theorem iteration_unfinished (rs : List Buttons) (s : State)
    (h : ¬ (iteration rs s).1.buttonPressed = true) : (iteration rs s).2 = [] := by
  rw [iteration_snd]
  apply pollLoop_exhausted
  rw [iteration_eq] at h
  by_cases hp : (pollLoop rs (pollEntry s)).1.buttonPressed = true
  · exfalso
    apply h
    simp only [hp, if_true]
    rw [dispatch_buttonPressed]
    exact hp
  · simpa using hp

theorem pollStates_length (n : Nat) (rs : List Buttons) (s : State) :
    (pollStates n rs s).length + (mainLoop n rs s).2.length = rs.length := by
  induction n generalizing rs s with
  | zero => simp [pollStates, mainLoop]
  | succ n ih =>
    have h1 := pollLoopStates_length rs (pollEntry s) rfl
    rw [← iteration_snd] at h1
    simp only [pollStates, mainLoop, List.length_append]
    split_ifs with hp
    · have h2 := ih (iteration rs s).2 (iteration rs s).1
      omega
    · simp only [List.length_nil]
      omega

theorem mainLoop_uses_all (n : Nat) (rs : List Buttons) (s : State) (h : rs.length ≤ n) :
    (mainLoop n rs s).2 = [] := by
  induction n generalizing rs s with
  | zero =>
    have : rs = [] := List.length_eq_zero.mp (Nat.le_zero.mp h)
    rw [this]; rfl
  | succ n ih =>
    simp only [mainLoop]
    split_ifs with hp
    · apply ih
      cases rs with
      | nil => rw [iteration_snd]; simp [pollLoop]
      | cons b bs =>
        have h1 := pollLoopStates_length (b :: bs) (pollEntry s) rfl
        rw [← iteration_snd] at h1
        have h2 : (pollLoopStates (b :: bs) (pollEntry s)).length =
            (pollLoopStates bs (pollStep b (pollEntry s))).length + 1 := by
          simp [pollLoopStates, pollEntry]
        omega
    · exact iteration_unfinished rs s hp

/-! ## Result of a finished pass, by the branch that ended its poll sub-loop -/

theorem iteration_confirm (quiet : List Buttons) (b : Buttons) (rest : List Buttons)
    (s : State) (h0 : 0 ≤ s.current) (h8 : s.current < 8)
    (hq : ∀ q ∈ quiet, pollEvent q s.current = PollEvent.none)
    (hb : pollEvent b s.current = PollEvent.confirm) :
    iteration (quiet ++ b :: rest) s =
      ({ current := s.current, game_selected := -1, buttonPressed := true,
         trace := (redraw s).trace ++ List.replicate (quiet.length + 1) (Event.sleep_ms 10)
           ++ beepCalls ++ [Event.clear, Event.display, Event.game s.current.toNat] },
        rest) := by
  have hstep := pollStep_of_confirm b
    (emit (List.replicate quiet.length (Event.sleep_ms 10)) (pollEntry s)) hb
  rw [iteration_fire quiet b rest s hq (by rw [hb]; decide), hstep, dispatch_in_range]
  · simp [emit, buzzer_beep, pollEntry, redraw, List.replicate_succ']
  · exact h0
  · exact h8

theorem iteration_moveDown (quiet : List Buttons) (b : Buttons) (rest : List Buttons)
    (s : State) (hsel : s.game_selected = -1)
    (hq : ∀ q ∈ quiet, pollEvent q s.current = PollEvent.none)
    (hb : pollEvent b s.current = PollEvent.moveDown) :
    iteration (quiet ++ b :: rest) s =
      ({ current := s.current + 1, game_selected := -1, buttonPressed := true,
         trace := (redraw s).trace ++ List.replicate (quiet.length + 1) (Event.sleep_ms 10)
           ++ beepCalls },
        rest) := by
  have hstep := pollStep_of_moveDown b
    (emit (List.replicate quiet.length (Event.sleep_ms 10)) (pollEntry s)) hb
  rw [iteration_fire quiet b rest s hq (by rw [hb]; decide), hstep,
    dispatch_none]
  · simp [emit, buzzer_beep, pollEntry, redraw, List.replicate_succ', hsel]
  · exact hsel

theorem iteration_moveUp (quiet : List Buttons) (b : Buttons) (rest : List Buttons)
    (s : State) (hsel : s.game_selected = -1)
    (hq : ∀ q ∈ quiet, pollEvent q s.current = PollEvent.none)
    (hb : pollEvent b s.current = PollEvent.moveUp) :
    iteration (quiet ++ b :: rest) s =
      ({ current := s.current - 1, game_selected := -1, buttonPressed := true,
         trace := (redraw s).trace ++ List.replicate (quiet.length + 1) (Event.sleep_ms 10)
           ++ beepCalls },
        rest) := by
  have hstep := pollStep_of_moveUp b
    (emit (List.replicate quiet.length (Event.sleep_ms 10)) (pollEntry s)) hb
  rw [iteration_fire quiet b rest s hq (by rw [hb]; decide), hstep,
    dispatch_none]
  · simp [emit, buzzer_beep, pollEntry, redraw, List.replicate_succ', hsel]
  · exact hsel

theorem drawList_no_tone (c : Int) : List.countP isToneStart (drawList c) = 0 := by
  rw [List.countP_eq_zero]
  intro a ha
  simp only [drawList, List.mem_flatMap, drawRow] at ha
  obtain ⟨row, _, hrow⟩ := ha
  split_ifs at hrow <;> simp at hrow <;> rcases hrow with rfl | rfl | rfl | rfl <;> simp [isToneStart]

theorem redraw_no_tone (s : State) :
    List.countP isToneStart (redraw s).trace = List.countP isToneStart s.trace := by
  rw [redraw_trace]
  simp [List.countP_append, drawList_no_tone, List.countP_cons, isToneStart]

theorem pollLoop_quiet_fire (quiet : List Buttons) (b : Buttons) (rest : List Buttons)
    (s : State) (hs : s.buttonPressed = false)
    (hq : ∀ q ∈ quiet, pollEvent q s.current = PollEvent.none)
    (hb : pollEvent b s.current ≠ PollEvent.none) :
    pollLoop (quiet ++ b :: rest) s =
      (pollStep b (emit (List.replicate quiet.length (Event.sleep_ms 10)) s), rest) := by
  rw [pollLoop_quiet quiet (b :: rest) s hs hq]
  exact pollLoop_fire b rest _ hs hb

theorem mainLoop_succ (n : Nat) (rs : List Buttons) (s : State) :
    mainLoop (n + 1) rs s =
      if (iteration rs s).1.buttonPressed then mainLoop n (iteration rs s).2 (iteration rs s).1
      else iteration rs s := rfl

/-! ## Claims about the main loop -/

/-- C1: starting from `current = 0`, `game_selected = -1`, for every list of
samples `rs` and every bound `n` on the number of passes of `while (true)`:
`GAMELIST` has 8 entries; the state right after every poll step satisfies
`0 ≤ current < 8`; so does the state the run stops in; every sample used is
one poll step; and with `rs.length ≤ n` every sample of `rs` is used. -/
theorem current_index_invariant (n : Nat) (rs : List Buttons) :
    GAMELIST.length = 8 ∧
      (∀ t ∈ pollStates n rs initState, 0 ≤ t.current ∧ t.current < 8) ∧
      (0 ≤ (mainLoop n rs initState).1.current ∧ (mainLoop n rs initState).1.current < 8) ∧
      (pollStates n rs initState).length + (mainLoop n rs initState).2.length = rs.length ∧
      (rs.length ≤ n → (mainLoop n rs initState).2 = []) := by
  have hm := mainLoop_inv n rs initState initState_inv
  exact ⟨rfl, pollStates_range n rs initState initState_inv, ⟨hm.1, hm.2.1⟩,
    pollStates_length n rs initState, mainLoop_uses_all n rs initState⟩

theorem current_index_invariant_witness :
    pollStep downHeld (pollEntry initState)
        ∈ pollStates 3 [downHeld, released, { released with up := false }] initState ∧
      (0 ≤ (pollStep downHeld (pollEntry initState)).current ∧
        (pollStep downHeld (pollEntry initState)).current < 8) ∧
      (pollStates 3 [downHeld, released, { released with up := false }] initState).length
          + ([] : List Buttons).length = 3 :=
  have h := current_index_invariant 3 [downHeld, released, { released with up := false }]
  have hmem : pollStep downHeld (pollEntry initState)
      ∈ pollStates 3 [downHeld, released, { released with up := false }] initState :=
    List.mem_cons_self _ _
  ⟨hmem, h.2.1 _ hmem, (h.2.2.2.2 (by decide)) ▸ h.2.2.2.1⟩

/-- C6: for every `i` with `0 ≤ i < 8` and every state with `current = i`, a pass of
the main loop whose poll sub-loop sees samples that take no branch and then a
sample that takes the confirm branch: leaves the sub-loop with
`game_selected = i`, `current = i` and `buttonPressed` set; the switch then
takes `case i` (and `i` is one of the eight labels); the pass ends with
`current = i`, `game_selected = -1`, having called, after the redraw and the
debounce sleeps, the tone, `clear`, `display` and `case i`.  And in every run
from the initial state `game_selected = -1` whenever a pass starts (or the
run stops inside a poll sub-loop), so at every redraw. -/
theorem confirm_dispatch_reset (i : Int) (s : State) (quiet : List Buttons) (b : Buttons)
    (rest : List Buttons) (n : Nat) (rs : List Buttons)
    (h0 : 0 ≤ i) (h8 : i < 8) (hc : s.current = i)
    (hq : ∀ q ∈ quiet, pollEvent q i = PollEvent.none)
    (hb : pollEvent b i = PollEvent.confirm) :
    (pollLoop (quiet ++ b :: rest) (pollEntry s)).1.game_selected = i ∧
      (pollLoop (quiet ++ b :: rest) (pollEntry s)).1.current = i ∧
      (pollLoop (quiet ++ b :: rest) (pollEntry s)).1.buttonPressed = true ∧
      gameSwitch (emit [Event.clear, Event.display]
          (buzzer_beep (pollLoop (quiet ++ b :: rest) (pollEntry s)).1)) =
        emit [Event.game i.toNat] (emit [Event.clear, Event.display]
          (buzzer_beep (pollLoop (quiet ++ b :: rest) (pollEntry s)).1)) ∧
      (i.toNat < 8 ∧ (i.toNat : Int) = i) ∧
      iteration (quiet ++ b :: rest) s =
        ({ current := i, game_selected := -1, buttonPressed := true,
           trace := (redraw s).trace ++ List.replicate (quiet.length + 1) (Event.sleep_ms 10)
             ++ beepCalls ++ [Event.clear, Event.display, Event.game i.toNat] },
          rest) ∧
      (mainLoop n rs initState).1.game_selected = -1 := by
  subst hc
  have hne : pollEvent b s.current ≠ PollEvent.none := by rw [hb]; decide
  have hloop := pollLoop_quiet_fire quiet b rest (pollEntry s) rfl hq hne
  have hstep := pollStep_of_confirm b
    (emit (List.replicate quiet.length (Event.sleep_ms 10)) (pollEntry s)) hb
  rw [hloop, hstep]
  refine ⟨rfl, rfl, rfl, ?_, ⟨by omega, by omega⟩,
    iteration_confirm quiet b rest s h0 h8 hq hb,
    (mainLoop_inv n rs initState initState_inv).2.2⟩
  exact gameSwitch_in_range _ h0 h8

theorem confirm_dispatch_reset_witness :
    iteration [released, { released with button2 := false }, downHeld] (atIndex 5) =
      ({ current := 5, game_selected := -1, buttonPressed := true,
         trace := (redraw (atIndex 5)).trace ++ [Event.sleep_ms 10, Event.sleep_ms 10]
           ++ beepCalls ++ [Event.clear, Event.display, Event.game 5] },
        [downHeld]) :=
  (confirm_dispatch_reset 5 (atIndex 5)
    [released] { released with button2 := false } [downHeld] 0 []
    (by decide) (by decide) rfl (by decide) (by decide)).2.2.2.2.2.1

/-- C8: for every state at the head of the main loop (`0 ≤ current < 8`,
`game_selected = -1`), a pass whose poll sub-loop sees samples that take no
branch and then a sample that takes a branch (move or confirm) makes these
calls in this order: the redraw, one debounce sleep per poll step, the calls of
one `buzzer_beep`, then the dispatch calls (only after a confirm).  One
`buzzer_beep` starts one tone; the pass adds exactly one tone start to the
trace; the redraw of the next pass comes after it.  A pass all of whose
samples take no branch adds the redraw and the debounce sleeps only, and no
tone start. -/
theorem one_tone_per_event (s : State) (quiet : List Buttons) (b : Buttons)
    (rest : List Buttons)
    (h0 : 0 ≤ s.current) (h8 : s.current < 8) (hsel : s.game_selected = -1)
    (hq : ∀ q ∈ quiet, pollEvent q s.current = PollEvent.none)
    (hb : pollEvent b s.current ≠ PollEvent.none) :
    (iteration (quiet ++ b :: rest) s).1.trace =
        (redraw s).trace ++ List.replicate (quiet.length + 1) (Event.sleep_ms 10)
          ++ beepCalls
          ++ (if pollEvent b s.current = PollEvent.confirm then
                [Event.clear, Event.display, Event.game s.current.toNat]
              else []) ∧
      (iteration (quiet ++ b :: rest) s).2 = rest ∧
      List.countP isToneStart beepCalls = 1 ∧
      List.countP isToneStart (iteration (quiet ++ b :: rest) s).1.trace =
        List.countP isToneStart s.trace + 1 ∧
      (redraw (iteration (quiet ++ b :: rest) s).1).trace =
        (iteration (quiet ++ b :: rest) s).1.trace
          ++ ([Event.clear] ++ drawList (iteration (quiet ++ b :: rest) s).1.current
          ++ [Event.display, Event.sleep_ms 200]) ∧
      (iteration quiet s).1.trace =
        (redraw s).trace ++ List.replicate quiet.length (Event.sleep_ms 10) ∧
      List.countP isToneStart (iteration quiet s).1.trace =
        List.countP isToneStart s.trace := by
  have hbeep : List.countP isToneStart beepCalls = 1 := by decide
  have hsleep : ∀ k : Nat,
      List.countP isToneStart (List.replicate k (Event.sleep_ms 10)) = 0 := by
    intro k
    rw [List.countP_replicate]
    simp [isToneStart]
  have hquiet := iteration_quiet quiet s hq
  have hfire : (iteration (quiet ++ b :: rest) s).1.trace =
        (redraw s).trace ++ List.replicate (quiet.length + 1) (Event.sleep_ms 10)
          ++ beepCalls
          ++ (if pollEvent b s.current = PollEvent.confirm then
                [Event.clear, Event.display, Event.game s.current.toNat]
              else []) ∧
      (iteration (quiet ++ b :: rest) s).2 = rest := by
    cases hev : pollEvent b s.current with
    | none => exact absurd hev hb
    | moveDown => rw [iteration_moveDown quiet b rest s hsel hq hev]; simp
    | moveUp => rw [iteration_moveUp quiet b rest s hsel hq hev]; simp
    | confirm => rw [iteration_confirm quiet b rest s h0 h8 hq hev]; simp
  refine ⟨hfire.1, hfire.2, hbeep, ?_, redraw_trace _, ?_, ?_⟩
  · rw [hfire.1]
    simp only [List.countP_append, redraw_no_tone, hsleep, hbeep]
    split_ifs <;> simp [List.countP_cons, isToneStart]
  · rw [hquiet]; rfl
  · rw [hquiet]
    show List.countP isToneStart
      ((redraw s).trace ++ List.replicate quiet.length (Event.sleep_ms 10)) = _
    rw [List.countP_append, redraw_no_tone, hsleep]
    rfl

theorem one_tone_per_event_witness :
    List.countP isToneStart (iteration [released, downHeld] initState).1.trace = 0 + 1 ∧
      List.countP isToneStart (iteration [released] initState).1.trace = 0 :=
  have h := one_tone_per_event initState [released] downHeld []
    (by decide) (by decide) rfl (by decide) (by decide)
  ⟨h.2.2.2.1, h.2.2.2.2.2.2⟩

/-- C9: with Down held and the other five lines released at every sample, for
every start index `c ≥ 0` and every `n` with `c + n ≤ 7`, `n` passes of the
main loop started with `current = c`, `game_selected = -1` end with
`current = c + n` and `game_selected = -1`, and use exactly `n` samples: each
pass registers the held button on its first poll step, with no released
sample in between. -/
theorem held_down_retriggers (c : Int) (n m : Nat) (s : State)
    (h0 : 0 ≤ c) (hn : c + n ≤ 7) (hm : n ≤ m)
    (hc : s.current = c) (hsel : s.game_selected = -1) :
    (mainLoop n (List.replicate m downHeld) s).1.current = c + n ∧
      (mainLoop n (List.replicate m downHeld) s).1.game_selected = -1 ∧
      (mainLoop n (List.replicate m downHeld) s).2 = List.replicate (m - n) downHeld := by
  induction n generalizing c m s with
  | zero => simpa [mainLoop] using ⟨hc, hsel⟩
  | succ n ih =>
    obtain ⟨m2, rfl⟩ : ∃ m2, m = m2 + 1 := ⟨m - 1, by omega⟩
    have hev : pollEvent downHeld s.current = PollEvent.moveDown := by
      rw [pollEvent_moveDown_iff]
      refine ⟨Or.inl (by decide), ?_⟩
      push_cast at hn
      omega
    have hit := iteration_moveDown [] downHeld (List.replicate m2 downHeld) s hsel
      (by simp) hev
    rw [List.nil_append, ← List.replicate_succ] at hit
    have hcur : (iteration (List.replicate (m2 + 1) downHeld) s).1.current = c + 1 := by
      rw [hit]; exact congrArg (· + 1) hc
    have hsel2 : (iteration (List.replicate (m2 + 1) downHeld) s).1.game_selected = -1 := by
      rw [hit]
    have hbp : (iteration (List.replicate (m2 + 1) downHeld) s).1.buttonPressed = true := by
      rw [hit]
    have hrest : (iteration (List.replicate (m2 + 1) downHeld) s).2
        = List.replicate m2 downHeld := by
      rw [hit]
    have hn2 : c + 1 + (n : Int) ≤ 7 := by push_cast at hn; omega
    have h := ih (c + 1) m2 (iteration (List.replicate (m2 + 1) downHeld) s).1
      (by omega) hn2 (by omega) hcur hsel2
    rw [mainLoop_succ, if_pos hbp, hrest]
    refine ⟨?_, h.2.1, ?_⟩
    · rw [h.1]; push_cast; ring
    · rw [h.2.2, Nat.succ_sub_succ]

theorem held_down_retriggers_witness :
    (mainLoop 3 (List.replicate 5 downHeld) (atIndex 2)).1.current = 2 + (3 : Nat) ∧
      (mainLoop 3 (List.replicate 5 downHeld) (atIndex 2)).2
        = List.replicate (5 - 3) downHeld :=
  have h := held_down_retriggers 2 3 5 (atIndex 2)
    (by decide) (by decide) (by decide) rfl rfl
  ⟨h.1, h.2.2⟩

end Menu
